import Mathlib

/-!
Shallow embedding of the request-lifecycle core of the `cppindriver` sample
function driver (`src/wdm/function/function.cpp` and `src/drv/csq.h`).

Bytes are modelled as natural numbers, the bounded buffer as the list of the
bytes it currently holds (`used = buffer.length`), and the two cancel-safe
queues as FIFO lists (`irp_list::on_insert_impl` does `list.add_tail`, and
`remove_next()` without a peek context removes the head).  The buffer
capacity `MaxBufferSize` is a construction-time constant in the source; all
operations here take it as the parameter `cap`, and the driver's instance is
`cap = MaxBufferSize`.

Every completion (`irp_t::complete(status, information)`) is recorded in a
log, together with the bytes a read request received; note that
`complete(STATUS_CANCELLED)` leaves `information` at its default value `0`.

`static_buffer::append` carries `assert(used + appended_data.size() <=
MaxBufferSize)`; the state field `ok` records whether every `append` and
`erase` executed so far satisfied its assert.
-/

/-- The `MaxBufferSize` constant from `function.cpp`. -/
def MaxBufferSize : Nat := 1 * 1024 * 1024

/-- A byte of buffer or request payload. -/
abbrev Byte := Nat

/-- Final status written into `IoStatus.Status` by the completions this core
performs (`STATUS_SUCCESS` or `STATUS_CANCELLED`). -/
inductive Status where
  | success
  | cancelled
  deriving DecidableEq

/-- One recorded call of `irp_t::complete`: the request's identity, the
status, the `Information` field (bytes transferred), and — for read
requests — the bytes that were copied into the request's user buffer. -/
structure Completion where
  id : Nat
  status : Status
  info : Nat
  bytes : List Byte
  deriving DecidableEq

/-- A read IRP: identity, owning file object (client handle) and
`Parameters.Read.Length`. -/
structure ReadReq where
  id : Nat
  handle : Nat
  len : Nat
  deriving DecidableEq

/-- A write IRP: identity, owning file object, the full data span
(`SystemBuffer` of `Parameters.Write.Length` bytes) and the partial progress
counter stored in `Tail.Overlay.DriverContext[0]`. -/
structure WriteReq where
  id : Nat
  handle : Nat
  data : List Byte
  progress : Nat
  deriving DecidableEq

/-- State of one `function_device_t`: the bounded buffer contents, the
inbound (read) queue, the outbound (write) queue, the completion log and the
conjunction of all buffer asserts executed so far. -/
structure DevState where
  buffer : List Byte
  inQ : List ReadReq
  outQ : List WriteReq
  log : List Completion
  ok : Bool
  deriving DecidableEq

/-- The device state right after construction: empty buffer, empty queues. -/
def initState : DevState := ⟨[], [], [], [], true⟩

/-- Embeds `static_buffer::free_space()`: `MaxBufferSize - used`. -/
def free_space (cap : Nat) (buffer : List Byte) : Nat := cap - buffer.length

/-- The assert of `static_buffer::append`:
`used + appended_data.size() <= MaxBufferSize`. -/
def append_ok (cap : Nat) (buffer appended : List Byte) : Bool :=
  decide (buffer.length + appended.length ≤ cap)

/-- The assert of `static_buffer::erase`: `bytes <= used`. -/
def erase_ok (buffer : List Byte) (bytes : Nat) : Bool :=
  decide (bytes ≤ buffer.length)

/-- Loop body of `function_device_t::process_pending_reads`: repeatedly pop
the head of `in_queue`; with `bytes_to_copy = min(destination.size(),
buffer.size())`, if it is nonzero copy that prefix out of the buffer, erase
it and complete the IRP with `STATUS_SUCCESS` and `bytes_to_copy`;
otherwise re-insert the popped IRP (at the tail, via `add_tail`) and stop.
The extra `Bool` is the local `requests_processed` flag; the `fuel`
argument only bounds the recursion and `s.inQ.length` always suffices. -/
def process_pending_reads_loop (cap : Nat) :
    Nat → DevState → Bool → DevState × Bool
  | 0, s, processed => (s, processed)
  | fuel + 1, s, processed =>
    match s.inQ with
    | [] => (s, processed)
    | r :: rest =>
      let btc := min r.len s.buffer.length
      if btc ≠ 0 then
        process_pending_reads_loop cap fuel
          { s with
            inQ := rest
            buffer := s.buffer.drop btc
            log := s.log ++ [⟨r.id, .success, btc, s.buffer.take btc⟩]
            ok := s.ok && erase_ok s.buffer btc } true
      else
        ({ s with inQ := rest ++ [r] }, processed)

/-- Loop body of `function_device_t::process_pending_writes`: pop the head
of `out_queue`; `bytes_taken_so_far` is `DriverContext[0]`, `irp_buffer` is
the data span past that offset, `bytes_to_copy = min(free_space,
irp_buffer.size())`.  If nonzero, the source appends
`irp_buffer.subspan(bytes_to_copy)` — the bytes AFTER the first
`bytes_to_copy` of the remaining span — then either completes the IRP with
`bytes_taken_so_far + bytes_to_copy` (when the remainder fitted entirely)
or updates `DriverContext[0]` and re-inserts the IRP (at the tail) and
stops.  If `bytes_to_copy` is zero it re-inserts the IRP and stops.  The
extra `Bool` is the local `buffer_grown` flag. -/
def process_pending_writes_loop (cap : Nat) :
    Nat → DevState → Bool → DevState × Bool
  | 0, s, grown => (s, grown)
  | fuel + 1, s, grown =>
    match s.outQ with
    | [] => (s, grown)
    | w :: rest =>
      let taken := w.progress
      let irpBuffer := w.data.drop taken
      let free := free_space cap s.buffer
      let btc := min free irpBuffer.length
      if btc ≠ 0 then
        if irpBuffer.length = btc then
          process_pending_writes_loop cap fuel
            { s with
              outQ := rest
              buffer := s.buffer ++ irpBuffer.drop btc
              log := s.log ++ [⟨w.id, .success, taken + btc, []⟩]
              ok := s.ok && append_ok cap s.buffer (irpBuffer.drop btc) } true
        else
          ({ s with
              outQ := rest ++ [{ w with progress := taken + btc }]
              buffer := s.buffer ++ irpBuffer.drop btc
              ok := s.ok && append_ok cap s.buffer (irpBuffer.drop btc) }, true)
      else
        ({ s with outQ := rest ++ [w] }, grown)

/-- The mutual recursion of `process_pending_reads` (direction `true`) and
`process_pending_writes` (direction `false`): run the queue's loop, and if
it reported progress (`requests_processed` / `buffer_grown`) run the
opposite routine once.  The second component instruments the call with the
nesting depth actually reached (number of drain activations on the chain);
`fuel` bounds the mutual recursion and leaves the state unchanged with
depth `0` when exhausted. -/
def drain (cap : Nat) : Nat → Bool → DevState → DevState × Nat
  | 0, _, s => (s, 0)
  | fuel + 1, true, s =>
    let r := process_pending_reads_loop cap s.inQ.length s false
    if r.2 then
      let d := drain cap fuel false r.1
      (d.1, d.2 + 1)
    else
      (r.1, 1)
  | fuel + 1, false, s =>
    let r := process_pending_writes_loop cap s.outQ.length s false
    if r.2 then
      let d := drain cap fuel true r.1
      (d.1, d.2 + 1)
    else
      (r.1, 1)

/-- Embeds `function_device_t::process_pending_reads`. -/
def process_pending_reads (cap fuel : Nat) (s : DevState) : DevState × Nat :=
  drain cap fuel true s

/-- Embeds `function_device_t::process_pending_writes`. -/
def process_pending_writes (cap fuel : Nat) (s : DevState) : DevState × Nat :=
  drain cap fuel false s

/-- Embeds `function_device_t::drv_dispatch_read`: if the buffer is not empty,
copy `min(read_data.size(), buffer.size())` bytes out, erase them and
complete synchronously with `STATUS_SUCCESS`; otherwise mark the IRP
pending and insert it into `in_queue`.  Either way then run
`process_pending_writes`.  The returned `Bool` is `true` when the result
was `STATUS_PENDING`. -/
def drv_dispatch_read (cap fuel : Nat) (r : ReadReq) (s : DevState) :
    DevState × Bool :=
  if s.buffer.length ≠ 0 then
    let btc := min r.len s.buffer.length
    let s1 : DevState :=
      { s with
        buffer := s.buffer.drop btc
        log := s.log ++ [⟨r.id, .success, btc, s.buffer.take btc⟩]
        ok := s.ok && erase_ok s.buffer btc }
    ((process_pending_writes cap fuel s1).1, false)
  else
    let s1 : DevState := { s with inQ := s.inQ ++ [r] }
    ((process_pending_writes cap fuel s1).1, true)

/-- Embeds `function_device_t::drv_dispatch_write`: if `buffer.free_space() >=
input_data.size()`, append the whole span and complete synchronously with
`STATUS_SUCCESS` and the span size; otherwise append the first
`free_space` bytes, store `free_space` into `DriverContext[0]`, mark the
IRP pending and insert it into `out_queue`.  Either way then run
`process_pending_reads`.  The returned `Bool` is `true` when the result
was `STATUS_PENDING`. -/
def drv_dispatch_write (cap fuel : Nat) (w : WriteReq) (s : DevState) :
    DevState × Bool :=
  let d := w.data
  let free := free_space cap s.buffer
  if free ≥ d.length then
    let s1 : DevState :=
      { s with
        buffer := s.buffer ++ d
        log := s.log ++ [⟨w.id, .success, d.length, []⟩]
        ok := s.ok && append_ok cap s.buffer d }
    ((process_pending_reads cap fuel s1).1, false)
  else
    let s1 : DevState :=
      { s with
        buffer := s.buffer ++ d.take free
        outQ := s.outQ ++ [{ w with progress := free }]
        ok := s.ok && append_ok cap s.buffer (d.take free) }
    ((process_pending_reads cap fuel s1).1, true)

/-- Embeds `drv::details::irp_list::on_peek_impl` followed by the removal done by
`IoCsqRemoveNextIrp` with a non-null peek context: scan from the head for
the first IRP whose `FileObject` matches and remove exactly it, leaving
every other element in place. -/
def remove_first {α : Type} (p : α → Bool) : List α → Option α × List α
  | [] => (none, [])
  | x :: xs =>
    if p x then (some x, xs)
    else
      let r := remove_first p xs
      (r.1, x :: r.2)

/-- The completion `std::move(irp).complete(STATUS_CANCELLED)` performs:
`IoStatus.Information` stays at the default `0`. -/
def cancel_completion (rid : Nat) : Completion := ⟨rid, .cancelled, 0, []⟩

/-- One `while (auto pending_irp = queue.remove_next(file_object))` loop of
`drv_dispatch_cleanup`: keep removing the first IRP matching the file
object and complete it with `STATUS_CANCELLED`; `fuel = q.length` always
suffices. -/
def cancel_all_loop {α : Type} (getId : α → Nat) (p : α → Bool) :
    Nat → List α → List Completion → List α × List Completion
  | 0, q, log => (q, log)
  | fuel + 1, q, log =>
    match (remove_first p q).1 with
    | none => (q, log)
    | some r =>
      cancel_all_loop getId p fuel (remove_first p q).2
        (log ++ [cancel_completion (getId r)])

/-- Embeds `function_device_t::drv_dispatch_cleanup` for file object `h`: cancel
every pending IRP of `in_queue` tagged `h`, then every pending IRP of
`out_queue` tagged `h`, completing each with `STATUS_CANCELLED`. -/
def drv_dispatch_cleanup (h : Nat) (s : DevState) : DevState :=
  let rIn := cancel_all_loop (fun r : ReadReq => r.id)
    (fun r => r.handle == h) s.inQ.length s.inQ s.log
  let rOut := cancel_all_loop (fun w : WriteReq => w.id)
    (fun w => w.handle == h) s.outQ.length s.outQ rIn.2
  { s with inQ := rIn.1, outQ := rOut.1, log := rOut.2 }

/-- Modelled from the spec: the structural removal performed inside
`IoCsqRemoveNextIrp` (OS code, absent from `src/`), serialized by the
queue's single spin lock per §4.2/§5 of the spec — one atomic step that
removes and returns the queue head. -/
def csq_remove_next (q : List ReadReq) : Option ReadReq × List ReadReq :=
  match q with
  | [] => (none, [])
  | r :: rest => (some r, rest)

/-- Modelled from the spec: the cancellation path of the OS cancel-safe
queue (absent from `src/`), serialized by the same single lock — one atomic
step that removes the identified IRP if it is still queued and reports
whether it obtained it. -/
def csq_cancel (rid : Nat) (q : List ReadReq) : Bool × List ReadReq :=
  if q.any (fun r => r.id == rid) then
    (true, q.filter (fun r => r.id != rid))
  else
    (false, q)

/-- Serialization in which normal servicing (`remove_next` plus a successful
completion, as in `process_pending_reads`) wins the lock first and the
cancellation request runs second; returns the completions issued. -/
def race_service_first (rid : Nat) (q : List ReadReq) : List Completion :=
  let sRes := csq_remove_next q
  let serviceLog : List Completion :=
    match sRes.1 with
    | some r => [⟨r.id, .success, r.len, []⟩]
    | none => []
  let cRes := csq_cancel rid sRes.2
  serviceLog ++ (if cRes.1 then [cancel_completion rid] else [])

/-- Serialization in which the cancellation request wins the lock first and
normal servicing runs second; returns the completions issued. -/
def race_cancel_first (rid : Nat) (q : List ReadReq) : List Completion :=
  let cRes := csq_cancel rid q
  let cancelLog : List Completion :=
    if cRes.1 then [cancel_completion rid] else []
  let sRes := csq_remove_next cRes.2
  cancelLog ++
    (match sRes.1 with
     | some r => [⟨r.id, .success, r.len, []⟩]
     | none => [])

/-- All bytes delivered to read requests so far, in completion order. -/
def bytes_delivered (log : List Completion) : List Byte :=
  (log.map Completion.bytes).flatten

/-! ### Structural lemmas about the drain loops -/

theorem reads_loop_inQ_length (cap : Nat) : ∀ fuel (s : DevState) (f : Bool),
    ((process_pending_reads_loop cap fuel s f).1).inQ.length ≤ s.inQ.length ∧
    (f = false → (process_pending_reads_loop cap fuel s f).2 = true →
      ((process_pending_reads_loop cap fuel s f).1).inQ.length < s.inQ.length) := by
  intro fuel
  induction fuel with
  | zero =>
    intro s f
    refine ⟨Nat.le_refl _, ?_⟩
    intro hf h2
    rw [show (process_pending_reads_loop cap 0 s f).2 = f from rfl, hf] at h2
    exact absurd h2 (by simp)
  | succ n ih =>
    intro s f
    cases hq : s.inQ with
    | nil =>
      simp only [process_pending_reads_loop, hq]
      refine ⟨Nat.le_refl _, ?_⟩
      intro hf h2
      rw [hf] at h2
      exact absurd h2 (by simp)
    | cons r rest =>
      by_cases hb : min r.len s.buffer.length ≠ 0
      · have hle : ((process_pending_reads_loop cap n { s with
              inQ := rest
              buffer := s.buffer.drop (min r.len s.buffer.length)
              log := s.log ++ [⟨r.id, .success, min r.len s.buffer.length,
                s.buffer.take (min r.len s.buffer.length)⟩]
              ok := s.ok && erase_ok s.buffer (min r.len s.buffer.length) }
            true).1).inQ.length ≤ rest.length := (ih _ true).1
        simp only [process_pending_reads_loop, hq, if_pos hb]
        refine ⟨?_, fun _ _ => ?_⟩ <;> simp only [List.length_cons] <;> omega
      · simp only [process_pending_reads_loop, hq, if_neg hb]
        constructor
        · simp
        · intro hf h2
          rw [hf] at h2
          exact absurd h2 (by simp)

theorem writes_loop_inQ (cap : Nat) : ∀ fuel (s : DevState) (f : Bool),
    ((process_pending_writes_loop cap fuel s f).1).inQ = s.inQ := by
  intro fuel
  induction fuel with
  | zero => intro s f; rfl
  | succ n ih =>
    intro s f
    cases hq : s.outQ with
    | nil => simp only [process_pending_writes_loop, hq]
    | cons w rest =>
      by_cases hb : min (free_space cap s.buffer) (w.data.drop w.progress).length ≠ 0
      · by_cases hfit : (w.data.drop w.progress).length
            = min (free_space cap s.buffer) (w.data.drop w.progress).length
        · simp only [process_pending_writes_loop, hq, if_pos hb, if_pos hfit]
          rw [ih]
        · simp only [process_pending_writes_loop, hq, if_pos hb, if_neg hfit]
      · simp only [process_pending_writes_loop, hq, if_neg hb]

theorem reads_loop_log_extends (cap : Nat) : ∀ fuel (s : DevState) (f : Bool),
    ∃ t, ((process_pending_reads_loop cap fuel s f).1).log = s.log ++ t := by
  intro fuel
  induction fuel with
  | zero => intro s f; exact ⟨[], (List.append_nil _).symm⟩
  | succ n ih =>
    intro s f
    cases hq : s.inQ with
    | nil =>
      simp only [process_pending_reads_loop, hq]
      exact ⟨[], (List.append_nil _).symm⟩
    | cons r rest =>
      by_cases hb : min r.len s.buffer.length ≠ 0
      · obtain ⟨t, ht⟩ := ih { s with
            inQ := rest
            buffer := s.buffer.drop (min r.len s.buffer.length)
            log := s.log ++ [⟨r.id, .success, min r.len s.buffer.length,
              s.buffer.take (min r.len s.buffer.length)⟩]
            ok := s.ok && erase_ok s.buffer (min r.len s.buffer.length) } true
        simp only [process_pending_reads_loop, hq, if_pos hb]
        refine ⟨⟨r.id, .success, min r.len s.buffer.length,
          s.buffer.take (min r.len s.buffer.length)⟩ :: t, ?_⟩
        rw [ht]
        simp
      · simp only [process_pending_reads_loop, hq, if_neg hb]
        exact ⟨[], (List.append_nil _).symm⟩

theorem writes_loop_log_extends (cap : Nat) : ∀ fuel (s : DevState) (f : Bool),
    ∃ t, ((process_pending_writes_loop cap fuel s f).1).log = s.log ++ t := by
  intro fuel
  induction fuel with
  | zero => intro s f; exact ⟨[], (List.append_nil _).symm⟩
  | succ n ih =>
    intro s f
    cases hq : s.outQ with
    | nil =>
      simp only [process_pending_writes_loop, hq]
      exact ⟨[], (List.append_nil _).symm⟩
    | cons w rest =>
      by_cases hb : min (free_space cap s.buffer) (w.data.drop w.progress).length ≠ 0
      · by_cases hfit : (w.data.drop w.progress).length
            = min (free_space cap s.buffer) (w.data.drop w.progress).length
        · obtain ⟨t, ht⟩ := ih { s with
              outQ := rest
              buffer := s.buffer ++ (w.data.drop w.progress).drop
                (min (free_space cap s.buffer) (w.data.drop w.progress).length)
              log := s.log ++ [⟨w.id, .success, w.progress
                + min (free_space cap s.buffer) (w.data.drop w.progress).length, []⟩]
              ok := s.ok && append_ok cap s.buffer ((w.data.drop w.progress).drop
                (min (free_space cap s.buffer) (w.data.drop w.progress).length)) } true
          simp only [process_pending_writes_loop, hq, if_pos hb, if_pos hfit]
          refine ⟨⟨w.id, .success, w.progress
            + min (free_space cap s.buffer) (w.data.drop w.progress).length, []⟩ :: t, ?_⟩
          rw [ht]
          simp
        · simp only [process_pending_writes_loop, hq, if_pos hb, if_neg hfit]
          exact ⟨[], (List.append_nil _).symm⟩
      · simp only [process_pending_writes_loop, hq, if_neg hb]
        exact ⟨[], (List.append_nil _).symm⟩

theorem drain_log_extends (cap : Nat) : ∀ fuel (dir : Bool) (s : DevState),
    ∃ t, ((drain cap fuel dir s).1).log = s.log ++ t := by
  intro fuel
  induction fuel with
  | zero => intro dir s; exact ⟨[], (List.append_nil _).symm⟩
  | succ n ih =>
    intro dir s
    cases dir with
    | true =>
      simp only [drain]
      by_cases h2 : (process_pending_reads_loop cap s.inQ.length s false).2
      · simp only [if_pos h2]
        obtain ⟨t1, ht1⟩ := reads_loop_log_extends cap s.inQ.length s false
        obtain ⟨t2, ht2⟩ := ih false (process_pending_reads_loop cap s.inQ.length s false).1
        exact ⟨t1 ++ t2, by rw [ht2, ht1]; simp⟩
      · simp only [if_neg h2]
        exact reads_loop_log_extends cap s.inQ.length s false
    | false =>
      simp only [drain]
      by_cases h2 : (process_pending_writes_loop cap s.outQ.length s false).2
      · simp only [if_pos h2]
        obtain ⟨t1, ht1⟩ := writes_loop_log_extends cap s.outQ.length s false
        obtain ⟨t2, ht2⟩ := ih true (process_pending_writes_loop cap s.outQ.length s false).1
        exact ⟨t1 ++ t2, by rw [ht2, ht1]; simp⟩
      · simp only [if_neg h2]
        exact writes_loop_log_extends cap s.outQ.length s false

theorem drain_reads_inQ_nil (cap fuel : Nat) (s : DevState) (h : s.inQ = []) :
    (drain cap fuel true s).1 = s := by
  cases fuel with
  | zero => rfl
  | succ n =>
    simp only [drain, h, List.length_nil]
    rfl

/-! ### Characterization of the cleanup cancellation loop -/

theorem remove_first_none_spec {α : Type} (p : α → Bool) : ∀ q : List α,
    (remove_first p q).1 = none →
    (remove_first p q).2 = q ∧ q.filter p = [] ∧
      q.filter (fun x => !(p x)) = q := by
  intro q
  induction q with
  | nil => intro _; exact ⟨rfl, rfl, rfl⟩
  | cons x xs ih =>
    intro h
    by_cases hx : p x
    · rw [show remove_first p (x :: xs) = (some x, xs) by simp [remove_first, hx]] at h
      exact absurd h (by simp)
    · have hx' : p x = false := by simpa using hx
      rw [show remove_first p (x :: xs)
          = ((remove_first p xs).1, x :: (remove_first p xs).2)
          by simp [remove_first, hx]] at h ⊢
      obtain ⟨h1, h2, h3⟩ := ih h
      refine ⟨by rw [h1], ?_, ?_⟩
      · simp [List.filter, hx', h2]
      · simp [List.filter, hx', h3, h1]

theorem remove_first_some_spec {α : Type} (p : α → Bool) : ∀ (q : List α) r,
    (remove_first p q).1 = some r →
    q.filter p = r :: ((remove_first p q).2).filter p ∧
    q.filter (fun x => !(p x)) = ((remove_first p q).2).filter (fun x => !(p x)) ∧
    ((remove_first p q).2).length + 1 = q.length ∧ p r = true := by
  intro q
  induction q with
  | nil => intro r h; exact absurd h (by simp [remove_first])
  | cons x xs ih =>
    intro r h
    by_cases hx : p x
    · rw [show remove_first p (x :: xs) = (some x, xs) by simp [remove_first, hx]] at h ⊢
      have hrx : r = x := by simpa using h.symm
      subst hrx
      exact ⟨by simp [List.filter, hx], by simp [List.filter, hx], rfl, hx⟩
    · have hx' : p x = false := by simpa using hx
      rw [show remove_first p (x :: xs)
          = ((remove_first p xs).1, x :: (remove_first p xs).2)
          by simp [remove_first, hx]] at h ⊢
      obtain ⟨h1, h2, h3, h4⟩ := ih r h
      refine ⟨?_, ?_, ?_, h4⟩
      · simp [List.filter, hx', h1]
      · simp [List.filter, hx', h2]
      · simp [← h3]

theorem cancel_all_loop_eq {α : Type} (getId : α → Nat) (p : α → Bool) :
    ∀ fuel (q : List α) (log : List Completion), q.length ≤ fuel →
      cancel_all_loop getId p fuel q log =
        (q.filter (fun x => !(p x)),
         log ++ (q.filter p).map (fun x => cancel_completion (getId x))) := by
  intro fuel
  induction fuel with
  | zero =>
    intro q log h
    have hq : q = [] := List.eq_nil_of_length_eq_zero (Nat.le_zero.mp h)
    subst hq
    simp [cancel_all_loop]
  | succ n ih =>
    intro q log h
    cases hro : (remove_first p q).1 with
    | none =>
      obtain ⟨_, h2, h3⟩ := remove_first_none_spec p q hro
      simp only [cancel_all_loop, hro, h2, h3]
      simp
    | some r =>
      obtain ⟨h1, h2, h3, _⟩ := remove_first_some_spec p q r hro
      have hlen : ((remove_first p q).2).length ≤ n := by omega
      simp only [cancel_all_loop, hro, ih (remove_first p q).2 _ hlen]
      rw [h1, h2]
      simp

theorem drv_dispatch_cleanup_eq (h : Nat) (s : DevState) :
    drv_dispatch_cleanup h s =
      { s with
        inQ := s.inQ.filter (fun r => !(r.handle == h))
        outQ := s.outQ.filter (fun w => !(w.handle == h))
        log := s.log
          ++ (s.inQ.filter (fun r => r.handle == h)).map
            (fun r => cancel_completion r.id)
          ++ (s.outQ.filter (fun w => w.handle == h)).map
            (fun w => cancel_completion w.id) } := by
  unfold drv_dispatch_cleanup
  rw [cancel_all_loop_eq (fun r : ReadReq => r.id) (fun r => r.handle == h)
    s.inQ.length s.inQ s.log (Nat.le_refl _)]
  dsimp only
  rw [cancel_all_loop_eq (fun w : WriteReq => w.id) (fun w => w.handle == h)
    s.outQ.length s.outQ _ (Nat.le_refl _)]

/-! ### Claim theorems -/

/-- C1: refuted on the code.  With capacity 4, after `write [1,2,3]` (fills
3 bytes), `write [9,8,7,6,10]` (appends the prefix `[9]`, queues with
progress 1) and `read 1` (frees one byte and drains the outbound queue),
the drain appends `remaining.drop 1 = [7,6,10]` — the bytes AFTER the next
untransferred byte — so the buffer becomes `[2,3,9,7,6,10]` instead of the
`[2,3,9,8]` the claim requires (append the next `min(f,r) = 1`
untransferred byte `[8]`), and the queued request's progress is advanced to
2 although byte `[8]` never reached the buffer. -/
theorem C1_wrong_bytes_appended :
    ((drv_dispatch_read 4 10 ⟨3, 0, 1⟩
        ((drv_dispatch_write 4 10 ⟨2, 0, [9, 8, 7, 6, 10], 0⟩
          ((drv_dispatch_write 4 10 ⟨1, 0, [1, 2, 3], 0⟩ initState).1)).1)).1).buffer
      = [2, 3, 9, 7, 6, 10]
    ∧ ((drv_dispatch_read 4 10 ⟨3, 0, 1⟩
        ((drv_dispatch_write 4 10 ⟨2, 0, [9, 8, 7, 6, 10], 0⟩
          ((drv_dispatch_write 4 10 ⟨1, 0, [1, 2, 3], 0⟩ initState).1)).1)).1).buffer
      ≠ [2, 3, 9, 8]
    ∧ ((drv_dispatch_read 4 10 ⟨3, 0, 1⟩
        ((drv_dispatch_write 4 10 ⟨2, 0, [9, 8, 7, 6, 10], 0⟩
          ((drv_dispatch_write 4 10 ⟨1, 0, [1, 2, 3], 0⟩ initState).1)).1)).1).outQ
      = [⟨2, 0, [9, 8, 7, 6, 10], 2⟩] := by decide

/-- C2: refuted on the code.  Capacity 4: write `B = [65,66,67,68,69]`
("ABCDE"), then read 10 bytes.  The spec scenario expects the read to
return "ABCD" and the cascade to move the queued byte "E" into the buffer;
instead the buggy `subspan(bytes_to_copy)` appends nothing, the queued
write is completed claiming 5 bytes transferred, and the final state has an
empty buffer and empty queues: only 4 of the 5 written bytes are ever
delivered and the fifth is lost, so reading `len B` bytes cannot yield
`B`. -/
theorem C2_round_trip_violated :
    (drv_dispatch_read 4 10 ⟨11, 0, 10⟩
        ((drv_dispatch_write 4 10 ⟨10, 0, [65, 66, 67, 68, 69], 0⟩ initState).1)).1
      = ⟨[], [], [],
          [⟨11, .success, 4, [65, 66, 67, 68]⟩, ⟨10, .success, 5, []⟩], true⟩
    ∧ bytes_delivered ((drv_dispatch_read 4 10 ⟨11, 0, 10⟩
        ((drv_dispatch_write 4 10 ⟨10, 0, [65, 66, 67, 68, 69], 0⟩
          initState).1)).1).log = [65, 66, 67, 68] := by decide

/-- C3: refuted on the code.  Capacity 4: write `[1,2,3]`, write
`[4,5,6,7,8]` (queued with progress 1, buffer full), read 1 byte.  The
outbound drain then calls `append` with `remaining.drop 1` of size 3 while
`free_space` is 1, violating `append`'s assert
`used + size <= MaxBufferSize` and growing the buffer to 6 > 4 bytes. -/
theorem C3_append_assert_violated :
    ((drv_dispatch_read 4 10 ⟨3, 0, 1⟩
        ((drv_dispatch_write 4 10 ⟨2, 0, [4, 5, 6, 7, 8], 0⟩
          ((drv_dispatch_write 4 10 ⟨1, 0, [1, 2, 3], 0⟩ initState).1)).1)).1).ok
      = false
    ∧ ((drv_dispatch_read 4 10 ⟨3, 0, 1⟩
        ((drv_dispatch_write 4 10 ⟨2, 0, [4, 5, 6, 7, 8], 0⟩
          ((drv_dispatch_write 4 10 ⟨1, 0, [1, 2, 3], 0⟩ initState).1)).1)).1).buffer.length
      = 6 := by decide

/-- C4 counterexample: with capacity 4 and an empty buffer, a 5-byte write
(one more than `free_space() = 4`) returns `STATUS_PENDING` with NO
completion at all — the completion log stays empty — and the whole request
(not a remainder request) is queued with recorded progress 4; the claimed
"partial synchronous completion reporting free_space() bytes transferred"
does not happen. -/
theorem C4_no_partial_sync_completion :
    (drv_dispatch_write 4 10 ⟨1, 0, [65, 66, 67, 68, 69], 0⟩ initState).2 = true
    ∧ ((drv_dispatch_write 4 10 ⟨1, 0, [65, 66, 67, 68, 69], 0⟩ initState).1).log = []
    ∧ ((drv_dispatch_write 4 10 ⟨1, 0, [65, 66, 67, 68, 69], 0⟩ initState).1).outQ
      = [⟨1, 0, [65, 66, 67, 68, 69], 4⟩] := by decide

/-- C5 counterexample: capacity 1.  Two reads R1 (id 1) and R2 (id 2) are
queued in that order; a 0-byte write triggers a read drain that pops R1,
cannot serve it, and re-inserts it at the TAIL, rotating the queue to
`[R2, R1]`; a following 1-byte write then completes R2 while R1 — inserted
earlier — is still queued.  This refutes "re-inserts that same request at
the head/front position" and "no later-inserted request is ever completed
before it". -/
theorem C5_later_request_completed_first :
    ((drv_dispatch_write 1 10 ⟨3, 0, [], 0⟩
        ((drv_dispatch_read 1 10 ⟨2, 0, 1⟩
          ((drv_dispatch_read 1 10 ⟨1, 0, 1⟩ initState).1)).1)).1).inQ
      = [⟨2, 0, 1⟩, ⟨1, 0, 1⟩]
    ∧ ((drv_dispatch_write 1 10 ⟨4, 0, [7], 0⟩
        ((drv_dispatch_write 1 10 ⟨3, 0, [], 0⟩
          ((drv_dispatch_read 1 10 ⟨2, 0, 1⟩
            ((drv_dispatch_read 1 10 ⟨1, 0, 1⟩ initState).1)).1)).1)).1).inQ
      = [⟨1, 0, 1⟩]
    ∧ ((drv_dispatch_write 1 10 ⟨4, 0, [7], 0⟩
        ((drv_dispatch_write 1 10 ⟨3, 0, [], 0⟩
          ((drv_dispatch_read 1 10 ⟨2, 0, 1⟩
            ((drv_dispatch_read 1 10 ⟨1, 0, 1⟩ initState).1)).1)).1)).1).log.countP
        (fun c => c.id == 2) = 1
    ∧ ((drv_dispatch_write 1 10 ⟨4, 0, [7], 0⟩
        ((drv_dispatch_write 1 10 ⟨3, 0, [], 0⟩
          ((drv_dispatch_read 1 10 ⟨2, 0, 1⟩
            ((drv_dispatch_read 1 10 ⟨1, 0, 1⟩ initState).1)).1)).1)).1).log.countP
        (fun c => c.id == 1) = 0 := by decide

/-- C6 counterexample: capacity 1, buffer `[5]`, two queued 1-byte reads
and one queued 1-byte write.  `process_pending_reads` completes the first
read, stalls on the second, cascades into `process_pending_writes` (which
completes the queued write), which cascades into `process_pending_reads`
again: the mutual recursion reaches nesting depth 3 > 2. -/
theorem C6_depth_exceeds_two :
    2 < (process_pending_reads 1 10
      ⟨[5], [⟨1, 0, 1⟩, ⟨2, 0, 1⟩], [⟨3, 0, [9], 0⟩], [], true⟩).2 := by decide

/-- C7 counterexample: capacity 1.  A zero-length read (id 1) is queued on
an empty buffer; a 1-byte write then fills the buffer and drains the read
queue.  The buffer is non-empty when the head read is examined, yet
`bytes_to_copy = min(0, 1) = 0`, so the pass re-queues it and stops with a
non-empty buffer and no completion for the read — refuting both "if the
buffer is non-empty ... that request is completed" and "stops only when the
buffer is empty". -/
theorem C7_zero_length_head_stalls :
    ((drv_dispatch_write 1 10 ⟨2, 0, [7], 0⟩
        ((drv_dispatch_read 1 10 ⟨1, 0, 0⟩ initState).1)).1).buffer = [7]
    ∧ ((drv_dispatch_write 1 10 ⟨2, 0, [7], 0⟩
        ((drv_dispatch_read 1 10 ⟨1, 0, 0⟩ initState).1)).1).inQ = [⟨1, 0, 0⟩]
    ∧ ((drv_dispatch_write 1 10 ⟨2, 0, [7], 0⟩
        ((drv_dispatch_read 1 10 ⟨1, 0, 0⟩ initState).1)).1).log.countP
        (fun c => c.id == 1) = 0 := by decide

/-- C8: after `drv_dispatch_cleanup` for handle `h`, every request tagged
`h` has been removed from both queues and completed with a Cancelled
outcome (`STATUS_CANCELLED`, information 0), no request tagged `h` remains
in either queue, and the remaining requests are exactly the differently
tagged ones in their original relative order (a `filter` of the original
queue). -/
theorem C8_cleanup_cancels_tagged (h : Nat) (s : DevState) :
    (∀ r ∈ (drv_dispatch_cleanup h s).inQ, r.handle ≠ h) ∧
    (∀ w ∈ (drv_dispatch_cleanup h s).outQ, w.handle ≠ h) ∧
    (drv_dispatch_cleanup h s).inQ = s.inQ.filter (fun r => !(r.handle == h)) ∧
    (drv_dispatch_cleanup h s).outQ = s.outQ.filter (fun w => !(w.handle == h)) ∧
    (drv_dispatch_cleanup h s).log = s.log
      ++ (s.inQ.filter (fun r => r.handle == h)).map
        (fun r => cancel_completion r.id)
      ++ (s.outQ.filter (fun w => w.handle == h)).map
        (fun w => cancel_completion w.id) := by
  rw [drv_dispatch_cleanup_eq]
  refine ⟨?_, ?_, rfl, rfl, rfl⟩
  · intro r hr
    have := (List.mem_filter.mp hr).2
    simpa using this
  · intro w hw
    have := (List.mem_filter.mp hw).2
    simpa using this

/-- C6 amended: each drain call triggers at most one direct follow-on drain
of the opposite queue, but the cascade may nest deeper than 2; its nesting
depth is bounded by the number of queued inbound requests — at most
`2 * |inQ| + 1` when entered through `process_pending_reads` and
`2 * |inQ| + 2` when entered through `process_pending_writes` — because
every read-side activation that triggers a follow-on has completed at least
one inbound request, and the write side never grows the inbound queue. -/
theorem C6_drain_depth_bounded (cap : Nat) : ∀ fuel (dir : Bool) (s : DevState),
    (drain cap fuel dir s).2 ≤ 2 * s.inQ.length + (if dir then 1 else 2) := by
  intro fuel
  induction fuel with
  | zero =>
    intro dir s
    exact Nat.zero_le _
  | succ n ih =>
    intro dir s
    have hif1 : (if (true : Bool) = true then (1 : Nat) else 2) = 1 := rfl
    have hif2 : (if (false : Bool) = true then (1 : Nat) else 2) = 2 := rfl
    cases dir with
    | true =>
      rw [hif1]
      by_cases h2 : (process_pending_reads_loop cap s.inQ.length s false).2 = true
      · have hd : (drain cap (n + 1) true s).2
            = (drain cap n false
                (process_pending_reads_loop cap s.inQ.length s false).1).2 + 1 := by
          simp only [drain]
          rw [if_pos h2]
        have hlt := (reads_loop_inQ_length cap s.inQ.length s false).2 rfl h2
        have hb := ih false (process_pending_reads_loop cap s.inQ.length s false).1
        rw [hif2] at hb
        rw [hd]
        omega
      · have hd : (drain cap (n + 1) true s).2 = 1 := by
          simp only [drain]
          rw [if_neg h2]
        rw [hd]
        omega
    | false =>
      rw [hif2]
      by_cases h2 : (process_pending_writes_loop cap s.outQ.length s false).2 = true
      · have hd : (drain cap (n + 1) false s).2
            = (drain cap n true
                (process_pending_writes_loop cap s.outQ.length s false).1).2 + 1 := by
          simp only [drain]
          rw [if_pos h2]
        have heq := writes_loop_inQ cap s.outQ.length s false
        have hb := ih true (process_pending_writes_loop cap s.outQ.length s false).1
        rw [hif1, heq] at hb
        rw [hd]
        omega
      · have hd : (drain cap (n + 1) false s).2 = 1 := by
          simp only [drain]
          rw [if_neg h2]
        rw [hd]
        omega

/-- C5 amended: when a drain pass pops a head request it cannot serve at
all, it re-inserts that same request at the TAIL of its queue (via
`irp_list::on_insert_impl` / `add_tail`) and stops; consequently, when the
queue holds more than one request the stalled head is rotated behind the
later-inserted requests and FIFO completion order is not preserved across
such a stall (see the counterexample). -/
theorem C5_stalled_head_requeued_at_tail (cap fuel : Nat) (s : DevState)
    (f : Bool) (r : ReadReq) (restR : List ReadReq)
    (w : WriteReq) (restW : List WriteReq)
    (hqr : s.inQ = r :: restR) (hbr : min r.len s.buffer.length = 0)
    (hqw : s.outQ = w :: restW)
    (hbw : min (free_space cap s.buffer) (w.data.drop w.progress).length = 0) :
    process_pending_reads_loop cap (fuel + 1) s f
      = ({ s with inQ := restR ++ [r] }, f) ∧
    process_pending_writes_loop cap (fuel + 1) s f
      = ({ s with outQ := restW ++ [w] }, f) := by
  constructor
  · simp only [process_pending_reads_loop, hqr]
    rw [if_neg (show ¬ (min r.len s.buffer.length ≠ 0) from fun hc => hc hbr)]
  · simp only [process_pending_writes_loop, hqw]
    rw [if_neg (show ¬ (min (free_space cap s.buffer)
      (w.data.drop w.progress).length ≠ 0) from fun hc => hc hbw)]

/-- Witness for C5's amended theorem: capacity 0, both queues holding two
requests with an empty buffer; both stalled heads are re-queued at the
tail, rotating each queue. -/
theorem C5_stalled_head_requeued_at_tail_witness :
    process_pending_reads_loop 0 3
        ⟨[], [⟨1, 0, 1⟩, ⟨2, 0, 1⟩], [⟨3, 0, [5], 0⟩, ⟨4, 0, [6], 0⟩], [], true⟩ false
      = (⟨[], [⟨2, 0, 1⟩, ⟨1, 0, 1⟩], [⟨3, 0, [5], 0⟩, ⟨4, 0, [6], 0⟩], [], true⟩, false)
    ∧ process_pending_writes_loop 0 3
        ⟨[], [⟨1, 0, 1⟩, ⟨2, 0, 1⟩], [⟨3, 0, [5], 0⟩, ⟨4, 0, [6], 0⟩], [], true⟩ false
      = (⟨[], [⟨1, 0, 1⟩, ⟨2, 0, 1⟩], [⟨4, 0, [6], 0⟩, ⟨3, 0, [5], 0⟩], [], true⟩, false) :=
  C5_stalled_head_requeued_at_tail 0 2
    ⟨[], [⟨1, 0, 1⟩, ⟨2, 0, 1⟩], [⟨3, 0, [5], 0⟩, ⟨4, 0, [6], 0⟩], [], true⟩
    false ⟨1, 0, 1⟩ [⟨2, 0, 1⟩] ⟨3, 0, [5], 0⟩ [⟨4, 0, [6], 0⟩]
    rfl (by decide) rfl (by decide)

/-- C7 amended: in an iteration of `process_pending_reads`, the popped head
`r` is copied to and completed with `bytes_to_copy = min(r.len,
buffer.size())` bytes whenever that minimum is positive — which requires
both a non-empty buffer and a non-zero request length; the pass re-queues
the popped head and stops exactly when the minimum is zero, i.e. when the
buffer is empty OR the head request has length zero. -/
theorem C7_satisfiable_head_completed (cap fuel : Nat) (s : DevState)
    (r : ReadReq) (rest : List ReadReq) (f : Bool)
    (hq : s.inQ = r :: rest) (hbtc : 0 < min r.len s.buffer.length) :
    (⟨r.id, .success, min r.len s.buffer.length,
       s.buffer.take (min r.len s.buffer.length)⟩ : Completion) ∈
      ((process_pending_reads_loop cap (fuel + 1) s f).1).log := by
  have hb : min r.len s.buffer.length ≠ 0 := Nat.pos_iff_ne_zero.mp hbtc
  simp only [process_pending_reads_loop, hq]
  rw [if_pos hb]
  obtain ⟨t, ht⟩ := reads_loop_log_extends cap fuel { s with
      inQ := rest
      buffer := s.buffer.drop (min r.len s.buffer.length)
      log := s.log ++ [⟨r.id, .success, min r.len s.buffer.length,
        s.buffer.take (min r.len s.buffer.length)⟩]
      ok := s.ok && erase_ok s.buffer (min r.len s.buffer.length) } true
  rw [ht]
  simp

/-- Witness for C7's amended theorem: buffer `[7,8]`, head read of length
5; the pass completes it with `min(5,2) = 2` bytes `[7,8]`. -/
theorem C7_satisfiable_head_completed_witness :
    (⟨1, .success, 2, [7, 8]⟩ : Completion) ∈
      ((process_pending_reads_loop 4 3
        ⟨[7, 8], [⟨1, 0, 5⟩], [], [], true⟩ false).1).log :=
  C7_satisfiable_head_completed 4 2 ⟨[7, 8], [⟨1, 0, 5⟩], [], [], true⟩
    ⟨1, 0, 5⟩ [] false rfl (by decide)

/-- C4 amended: with no pending reads, a write whose size equals the
buffer's current `free_space()` completes synchronously with that many
bytes transferred (result is not pending, the completion is logged, and
nothing is queued); a write one byte larger than `free_space()` appends the
first `free_space()` bytes synchronously, records progress =
`free_space()` on the request, queues the WHOLE request at the tail of the
outbound queue and returns `STATUS_PENDING` — with no completion issued
until a later drain pass. -/
theorem C4_write_boundary (cap fuel : Nat) (s : DevState) (w : WriteReq)
    (hcap : s.buffer.length ≤ cap) (hin : s.inQ = []) :
    (w.data.length = free_space cap s.buffer →
      drv_dispatch_write cap fuel w s =
        ({ s with
            buffer := s.buffer ++ w.data
            log := s.log ++ [⟨w.id, .success, w.data.length, []⟩] }, false)) ∧
    (w.data.length = free_space cap s.buffer + 1 →
      drv_dispatch_write cap fuel w s =
        ({ s with
            buffer := s.buffer ++ w.data.take (free_space cap s.buffer)
            outQ := s.outQ ++ [{ w with progress := free_space cap s.buffer }] },
          true)) := by
  constructor
  · intro hlen
    have hcond : free_space cap s.buffer ≥ w.data.length := Nat.le_of_eq hlen
    have hok : append_ok cap s.buffer w.data = true := by
      unfold append_ok
      unfold free_space at hlen
      rw [hlen]
      simp only [decide_eq_true_eq]
      omega
    unfold drv_dispatch_write
    rw [if_pos hcond]
    have hnil := drain_reads_inQ_nil cap fuel
      { s with
        buffer := s.buffer ++ w.data
        log := s.log ++ [⟨w.id, .success, w.data.length, []⟩]
        ok := s.ok && append_ok cap s.buffer w.data } hin
    unfold process_pending_reads
    dsimp only
    rw [hnil, hok, Bool.and_true]
  · intro hlen
    have hcond : ¬ (free_space cap s.buffer ≥ w.data.length) := by omega
    have htake : (w.data.take (free_space cap s.buffer)).length
        = free_space cap s.buffer := by
      rw [List.length_take]
      omega
    have hok : append_ok cap s.buffer (w.data.take (free_space cap s.buffer))
        = true := by
      unfold append_ok
      rw [htake]
      unfold free_space
      simp only [decide_eq_true_eq]
      omega
    unfold drv_dispatch_write
    rw [if_neg hcond]
    have hnil := drain_reads_inQ_nil cap fuel
      { s with
        buffer := s.buffer ++ w.data.take (free_space cap s.buffer)
        outQ := s.outQ ++ [{ w with progress := free_space cap s.buffer }]
        ok := s.ok && append_ok cap s.buffer
          (w.data.take (free_space cap s.buffer)) } hin
    unfold process_pending_reads
    dsimp only
    rw [hnil, hok, Bool.and_true]

/-- Witness for C4's amended theorem: capacity 4, buffer `[9,9]`
(`free_space = 2`); a 2-byte write completes synchronously while a 3-byte
write queues with progress 2 and returns pending. -/
theorem C4_write_boundary_witness :
    drv_dispatch_write 4 5 ⟨1, 0, [1, 2], 0⟩ ⟨[9, 9], [], [], [], true⟩ =
      (⟨[9, 9, 1, 2], [], [], [⟨1, .success, 2, []⟩], true⟩, false)
    ∧ drv_dispatch_write 4 5 ⟨2, 0, [1, 2, 3], 0⟩ ⟨[9, 9], [], [], [], true⟩ =
      (⟨[9, 9, 1, 2], [], [⟨2, 0, [1, 2, 3], 2⟩], [], true⟩, true) :=
  ⟨(C4_write_boundary 4 5 ⟨[9, 9], [], [], [], true⟩ ⟨1, 0, [1, 2], 0⟩
      (by decide) rfl).1 (by decide),
   (C4_write_boundary 4 5 ⟨[9, 9], [], [], [], true⟩ ⟨2, 0, [1, 2, 3], 0⟩
      (by decide) rfl).2 (by decide)⟩

theorem dispatch_read_sync_log (cap fuel : Nat) (r : ReadReq) (s : DevState)
    (hb : s.buffer ≠ []) :
    (⟨r.id, .success, min r.len s.buffer.length,
       s.buffer.take (min r.len s.buffer.length)⟩ : Completion) ∈
      ((drv_dispatch_read cap fuel r s).1).log := by
  unfold drv_dispatch_read
  rw [if_pos (show s.buffer.length ≠ 0 from
    fun h0 => hb (List.eq_nil_of_length_eq_zero h0))]
  dsimp only
  unfold process_pending_writes
  obtain ⟨t, ht⟩ := drain_log_extends cap fuel false { s with
      buffer := s.buffer.drop (min r.len s.buffer.length)
      log := s.log ++ [⟨r.id, .success, min r.len s.buffer.length,
        s.buffer.take (min r.len s.buffer.length)⟩]
      ok := s.ok && erase_ok s.buffer (min r.len s.buffer.length) }
  rw [ht]
  simp

/-- C9: modelling both serializations of the race that the cancel-safe
queue's single lock enforces between normal servicing (`remove_next` by a
drain pass) and external cancellation of the head request `R`: in each of
the two orders exactly one completion is issued for `R` — a Success
completion when servicing wins, a Cancelled completion when cancellation
wins — never both and never neither. -/
theorem C9_cancel_race_single_completion (R : ReadReq) (rest : List ReadReq)
    (hrest : ∀ x ∈ rest, x.id ≠ R.id) :
    (race_service_first R.id (R :: rest)).countP (fun c => c.id == R.id) = 1 ∧
    (race_cancel_first R.id (R :: rest)).countP (fun c => c.id == R.id) = 1 ∧
    (⟨R.id, .success, R.len, []⟩ : Completion) ∈ race_service_first R.id (R :: rest) ∧
    cancel_completion R.id ∈ race_cancel_first R.id (R :: rest) := by
  have hany : (rest.any fun x => x.id == R.id) = false := by
    rw [List.any_eq_false]
    intro x hx
    simp [hrest x hx]
  have hfil : rest.filter (fun x => x.id != R.id) = rest := by
    apply List.filter_eq_self.mpr
    intro x hx
    simp [hrest x hx]
  have hcanc2 : csq_cancel R.id rest = (false, rest) := by
    unfold csq_cancel
    rw [if_neg (by rw [hany]; exact Bool.false_ne_true)]
  have hA : race_service_first R.id (R :: rest)
      = [⟨R.id, .success, R.len, []⟩] := by
    unfold race_service_first
    rw [show csq_remove_next (R :: rest) = (some R, rest) from rfl]
    dsimp only
    rw [hcanc2]
    rfl
  have hcanc : csq_cancel R.id (R :: rest) = (true, rest) := by
    unfold csq_cancel
    rw [if_pos (by simp)]
    rw [List.filter_cons]
    simp [hfil]
  have hB : race_cancel_first R.id (R :: rest)
      = cancel_completion R.id ::
        (match (csq_remove_next rest).1 with
         | some x => [⟨x.id, .success, x.len, []⟩]
         | none => []) := by
    unfold race_cancel_first
    rw [hcanc]
    rfl
  refine ⟨?_, ?_, ?_, ?_⟩
  · rw [hA]
    simp
  · rw [hB]
    cases rest with
    | nil => simp [csq_remove_next, cancel_completion]
    | cons x t =>
      have hx : x.id ≠ R.id := hrest x (List.mem_cons_self x t)
      simp [csq_remove_next, cancel_completion, hx]
  · rw [hA]
    simp
  · rw [hB]
    simp

/-- Witness for C9: `R` has id 1 and a queue `[R, ⟨2,0,3⟩]`; both
serializations issue exactly one completion for id 1. -/
theorem C9_cancel_race_single_completion_witness :
    (race_service_first 1 [⟨1, 0, 4⟩, ⟨2, 0, 3⟩]).countP (fun c => c.id == 1) = 1 ∧
    (race_cancel_first 1 [⟨1, 0, 4⟩, ⟨2, 0, 3⟩]).countP (fun c => c.id == 1) = 1 ∧
    (⟨1, .success, 4, []⟩ : Completion) ∈ race_service_first 1 [⟨1, 0, 4⟩, ⟨2, 0, 3⟩] ∧
    cancel_completion 1 ∈ race_cancel_first 1 [⟨1, 0, 4⟩, ⟨2, 0, 3⟩] :=
  C9_cancel_race_single_completion ⟨1, 0, 4⟩ [⟨2, 0, 3⟩] (by decide)

/-- C10: when a partially-served outbound write tagged `h` is cancelled via
the cleanup path, the bytes it already appended stay in the buffer
(`drv_dispatch_cleanup` never touches the buffer), every completion the
cleanup adds is a Cancelled completion with information 0 (not the
request's recorded progress), and a subsequent read large enough to drain
the buffer is completed with exactly those remaining bytes. -/
theorem C10_cancelled_partial_write_keeps_buffer (cap fuel h : Nat)
    (s : DevState) (w : WriteReq) (r : ReadReq)
    (hw : w ∈ s.outQ) (hh : w.handle = h) (hp : 0 < w.progress)
    (hb : s.buffer ≠ []) (hr : s.buffer.length ≤ r.len) :
    (drv_dispatch_cleanup h s).buffer = s.buffer ∧
    cancel_completion w.id ∈ (drv_dispatch_cleanup h s).log ∧
    (∀ c ∈ (drv_dispatch_cleanup h s).log, c ∉ s.log →
      c.status = .cancelled ∧ c.info = 0) ∧
    (⟨r.id, .success, s.buffer.length, s.buffer⟩ : Completion) ∈
      ((drv_dispatch_read cap fuel r (drv_dispatch_cleanup h s)).1).log := by
  have hbuf : (drv_dispatch_cleanup h s).buffer = s.buffer := by
    rw [drv_dispatch_cleanup_eq]
  refine ⟨hbuf, ?_, ?_, ?_⟩
  · rw [drv_dispatch_cleanup_eq]
    have hwf : w ∈ s.outQ.filter (fun w' => w'.handle == h) :=
      List.mem_filter.mpr ⟨hw, by simp [hh]⟩
    have hmap : cancel_completion w.id ∈
        (s.outQ.filter (fun w' => w'.handle == h)).map
          (fun w' => cancel_completion w'.id) :=
      List.mem_map_of_mem _ hwf
    exact List.mem_append.mpr (Or.inr hmap)
  · rw [drv_dispatch_cleanup_eq]
    intro c hc hcs
    rcases List.mem_append.mp hc with hc1 | hc2
    · rcases List.mem_append.mp hc1 with hc0 | hcIn
      · exact absurd hc0 hcs
      · obtain ⟨x, _, hx⟩ := List.mem_map.mp hcIn
        rw [← hx]
        exact ⟨rfl, rfl⟩
    · obtain ⟨x, _, hx⟩ := List.mem_map.mp hc2
      rw [← hx]
      exact ⟨rfl, rfl⟩
  · have hm := dispatch_read_sync_log cap fuel r (drv_dispatch_cleanup h s)
      (by rw [hbuf]; exact hb)
    rw [hbuf, min_eq_right hr, List.take_length] at hm
    exact hm

/-- Witness for C10: capacity 4, buffer `[1,2]` holding bytes appended by
write id 5 (progress 2, handle 7); cleaning up handle 7 cancels it with
information 0, leaves `[1,2]` in the buffer, and a following 10-byte read
receives `[1,2]`. -/
theorem C10_cancelled_partial_write_keeps_buffer_witness :
    (drv_dispatch_cleanup 7 ⟨[1, 2], [], [⟨5, 7, [9, 9, 9], 2⟩], [], true⟩).buffer
      = [1, 2] ∧
    cancel_completion 5 ∈
      (drv_dispatch_cleanup 7 ⟨[1, 2], [], [⟨5, 7, [9, 9, 9], 2⟩], [], true⟩).log ∧
    (∀ c ∈ (drv_dispatch_cleanup 7
        ⟨[1, 2], [], [⟨5, 7, [9, 9, 9], 2⟩], [], true⟩).log,
      c ∉ ([] : List Completion) → c.status = .cancelled ∧ c.info = 0) ∧
    (⟨6, .success, 2, [1, 2]⟩ : Completion) ∈
      ((drv_dispatch_read 4 3 ⟨6, 0, 10⟩ (drv_dispatch_cleanup 7
        ⟨[1, 2], [], [⟨5, 7, [9, 9, 9], 2⟩], [], true⟩)).1).log :=
  C10_cancelled_partial_write_keeps_buffer 4 3 7
    ⟨[1, 2], [], [⟨5, 7, [9, 9, 9], 2⟩], [], true⟩ ⟨5, 7, [9, 9, 9], 2⟩ ⟨6, 0, 10⟩
    (by decide) rfl (by decide) (by decide) (by decide)
